/-
Verification of the FIR designer core (fir.rs / gui.rs) against its
natural-language specification.

The Rust source works on `f64`; this development embeds those computations
over the real numbers `ℝ`.  `usize` indices become `ℕ`.  Operations that can
panic in Rust (the length check in `compute_filter_windowed`, the
`self.len - 1` subtraction in `compute_window`) are embedded as
`Option`-valued functions, `none` standing for a panic.  One auxiliary type,
`FVal`, additionally models the IEEE-754 non-finite values produced by a
division by zero, which real-number division cannot express.
-/
import Mathlib

noncomputable section

open Real

set_option maxHeartbeats 1000000

namespace Fir

/-- The filter classes of `enum Filter` in fir.rs. -/
inductive Filter where
  | LowPass
  | HighPass
  | BandPass
  | BandStop
deriving DecidableEq

/-- The window kinds of `enum Window` in fir.rs. -/
inductive Window where
  | Rectangular
  | Triangular
  | Welch
  | Sin
  | Hann
  | Hamming
  | Blackman
  | Nuttall
  | BlackmanNuttall
  | BlackmanHarris
  | FlatTop
deriving DecidableEq

/-- `window_rectangular` from fir.rs. -/
def window_rectangular (_n _len : ℕ) : ℝ := 1.0

/-- `window_triangular` from fir.rs. -/
def window_triangular (n len : ℕ) : ℝ :=
  1.0 - |((n : ℝ) - 0.5 * (len : ℝ)) / (0.5 * (len : ℝ))|

/-- `window_welch` from fir.rs. -/
def window_welch (n len : ℕ) : ℝ :=
  1.0 - (((n : ℝ) - 0.5 * (len : ℝ)) / (0.5 * (len : ℝ))) ^ 2

/-- `window_sin` from fir.rs. -/
def window_sin (n len : ℕ) : ℝ :=
  Real.sin (π * (n : ℝ) / (len : ℝ))

/-- `window_hann` from fir.rs. -/
def window_hann (n len : ℕ) : ℝ :=
  0.5 * (1.0 - Real.cos (2 * π * (n : ℝ) / (len : ℝ)))

/-- `window_hamming` from fir.rs. -/
def window_hamming (n len : ℕ) : ℝ :=
  (25.0 / 46.0) - (21.0 / 46.0) * Real.cos (2 * π * (n : ℝ) / (len : ℝ))

/-- `window_blackman` from fir.rs. -/
def window_blackman (n len : ℕ) : ℝ :=
  0.42 - 0.5 * Real.cos (2 * π * (n : ℝ) / (len : ℝ))
    + 0.08 * Real.cos (4 * π * (n : ℝ) / (len : ℝ))

/-- `window_nuttall` from fir.rs. -/
def window_nuttall (n len : ℕ) : ℝ :=
  0.355768 - 0.487396 * Real.cos (2 * π * (n : ℝ) / (len : ℝ))
    + 0.144232 * Real.cos (4 * π * (n : ℝ) / (len : ℝ))
    - 0.012604 * Real.cos (6 * π * (n : ℝ) / (len : ℝ))

/-- `window_blackman_nuttall` from fir.rs. -/
def window_blackman_nuttall (n len : ℕ) : ℝ :=
  0.3635819 - 0.4891775 * Real.cos (2 * π * (n : ℝ) / (len : ℝ))
    + 0.1365995 * Real.cos (4 * π * (n : ℝ) / (len : ℝ))
    - 0.0106411 * Real.cos (6 * π * (n : ℝ) / (len : ℝ))

/-- `window_blackman_harris` from fir.rs. -/
def window_blackman_harris (n len : ℕ) : ℝ :=
  0.35875 - 0.48829 * Real.cos (2 * π * (n : ℝ) / (len : ℝ))
    + 0.14128 * Real.cos (4 * π * (n : ℝ) / (len : ℝ))
    - 0.01168 * Real.cos (6 * π * (n : ℝ) / (len : ℝ))

/-- `window_flat_top` from fir.rs. -/
def window_flat_top (n len : ℕ) : ℝ :=
  0.21557895 - 0.41663158 * Real.cos (2 * π * (n : ℝ) / (len : ℝ))
    + 0.277263158 * Real.cos (4 * π * (n : ℝ) / (len : ℝ))
    - 0.083578947 * Real.cos (6 * π * (n : ℝ) / (len : ℝ))
    + 0.006947368 * Real.cos (8 * π * (n : ℝ) / (len : ℝ))

/-- `Window::function` from fir.rs: dispatch from a window kind to its formula. -/
def Window.function : Window → ℕ → ℕ → ℝ
  | .Rectangular => window_rectangular
  | .Triangular => window_triangular
  | .Welch => window_welch
  | .Sin => window_sin
  | .Hann => window_hann
  | .Hamming => window_hamming
  | .Blackman => window_blackman
  | .Nuttall => window_nuttall
  | .BlackmanNuttall => window_blackman_nuttall
  | .BlackmanHarris => window_blackman_harris
  | .FlatTop => window_flat_top

/-- `filter_low_pass` from fir.rs.  The source compares `n as f64 != shift as f64`;
since the cast from `usize` is injective this is the same test as `n ≠ shift`. -/
def filter_low_pass (n shift : ℕ) (dt _f_lo_cut f_hi_cut : ℝ) : ℝ :=
  if n ≠ shift then
    Real.sin (2 * π * f_hi_cut * dt * ((n : ℝ) - (shift : ℝ)))
      / (π * dt * ((n : ℝ) - (shift : ℝ)))
  else
    2 * f_hi_cut

/-- `filter_high_pass` from fir.rs. -/
def filter_high_pass (n shift : ℕ) (dt f_lo_cut _f_hi_cut : ℝ) : ℝ :=
  if n ≠ shift then
    (Real.sin (π * ((n : ℝ) - (shift : ℝ)))
        - Real.sin (2 * π * f_lo_cut * dt * ((n : ℝ) - (shift : ℝ))))
      / (π * dt * ((n : ℝ) - (shift : ℝ)))
  else
    1 / dt - 2 * f_lo_cut

/-- `filter_band_pass` from fir.rs. -/
def filter_band_pass (n shift : ℕ) (dt f_lo_cut f_hi_cut : ℝ) : ℝ :=
  if n ≠ shift then
    (Real.sin (2 * π * f_hi_cut * dt * ((n : ℝ) - (shift : ℝ)))
        - Real.sin (2 * π * f_lo_cut * dt * ((n : ℝ) - (shift : ℝ))))
      / (π * dt * ((n : ℝ) - (shift : ℝ)))
  else
    2 * f_hi_cut - 2 * f_lo_cut

/-- `filter_band_stop` from fir.rs. -/
def filter_band_stop (n shift : ℕ) (dt f_lo_cut f_hi_cut : ℝ) : ℝ :=
  if n ≠ shift then
    (Real.sin (2 * π * f_lo_cut * dt * ((n : ℝ) - (shift : ℝ)))
        - Real.sin (2 * π * f_hi_cut * dt * ((n : ℝ) - (shift : ℝ)))
        + Real.sin (π * ((n : ℝ) - (shift : ℝ))))
      / (π * dt * ((n : ℝ) - (shift : ℝ)))
  else
    2 * f_lo_cut - 2 * f_hi_cut + 1 / dt

/-- `Filter::function` from fir.rs: dispatch from a filter class to its kernel formula. -/
def Filter.function : Filter → ℕ → ℕ → ℝ → ℝ → ℝ → ℝ
  | .LowPass => filter_low_pass
  | .HighPass => filter_high_pass
  | .BandPass => filter_band_pass
  | .BandStop => filter_band_stop

/-- `struct FilterDef` from fir.rs. -/
structure FilterDef where
  filter : Filter
  window : Window
  len : ℕ
  shift : ℕ
  f_sampling : ℝ
  f_lo_cut : ℝ
  f_hi_cut : ℝ

/-- The local `f` of `FilterDef::compute_filter` in fir.rs: the unnormalized
(raw) kernel, `(0..self.len).map(|n| filter_fn(n, self.shift, dt, lo, hi))`. -/
def rawKernel (d : FilterDef) : List ℝ :=
  (List.range d.len).map (fun n =>
    d.filter.function n d.shift (1 / d.f_sampling) d.f_lo_cut d.f_hi_cut)

/-- `FilterDef::compute_dc_gain` from fir.rs: fold summing the taps. -/
def compute_dc_gain (f : List ℝ) : ℝ :=
  f.foldl (fun g h => g + h) 0.0

/-- The fold inside `FilterDef::compute_gain` in fir.rs, carrying the running
index `n` and the accumulator `(re, im)`. -/
def computeGainAux (w : ℝ) : List ℝ → ℕ → ℝ × ℝ → ℝ × ℝ
  | [], _, acc => acc
  | h :: rest, n, (re, im) =>
      computeGainAux w rest (n + 1)
        (re + h * Real.cos (w * (n : ℝ)), im - h * Real.sin (w * (n : ℝ)))

/-- `FilterDef::compute_gain` from fir.rs. -/
def compute_gain (f : List ℝ) (w : ℝ) : ℝ :=
  let p := computeGainAux w f 0 (0, 0)
  Real.sqrt (p.1 ^ 2 + p.2 ^ 2)

/-- `FilterDef::normalize_filter` from fir.rs: divide every tap by the gain. -/
def normalize_filter (f : List ℝ) (g : ℝ) : List ℝ :=
  f.map (fun h => h / g)

/-- The `match self.filter` computing `g` inside `FilterDef::compute_filter`. -/
def gainOf (d : FilterDef) : ℝ :=
  match d.filter with
  | .LowPass | .BandStop => compute_dc_gain (rawKernel d)
  | .BandPass => compute_gain (rawKernel d) (d.f_lo_cut + (d.f_hi_cut - d.f_lo_cut) / 2)
  | .HighPass => compute_gain (rawKernel d) (d.f_sampling / 2)

/-- `FilterDef::compute_filter` from fir.rs: raw kernel, then gain, then
normalization — the function RETURNS the normalized kernel. -/
def compute_filter (d : FilterDef) : List ℝ :=
  normalize_filter (rawKernel d) (gainOf d)

/-- Checked `usize` subtraction: in Rust, `a - b` on `usize` panics on
underflow; `none` models the panic. -/
def checkedSub (a b : ℕ) : Option ℕ :=
  if b ≤ a then some (a - b) else none

/-- `FilterDef::compute_window` from fir.rs:
`(0..self.len).map(|n| window_fn(n, self.len - 1))`.  The subtraction
`self.len - 1` sits inside the closure, so it is evaluated once per element;
`none` models the underflow panic it would raise. -/
def compute_window (d : FilterDef) : Option (List ℝ) :=
  (List.range d.len).mapM (fun n =>
    (checkedSub d.len 1).map (fun m => d.window.function n m))

/-- The list of window weights `compute_window` returns when it does not
panic (`ℕ` subtraction stands in for the checked one). -/
def windowTaps (d : FilterDef) : List ℝ :=
  (List.range d.len).map (fun n => d.window.function n (d.len - 1))

/-- `FilterDef::compute_filter_windowed` from fir.rs: panics (`none`) when the
lengths differ, otherwise the elementwise product. -/
def compute_filter_windowed (f w : List ℝ) : Option (List ℝ) :=
  if f.length ≠ w.length then none
  else some (List.zipWith (fun a b => a * b) f w)

/-- An IEEE-754 double as a value: a finite real, an infinity, or NaN.
Used to express what `normalize_filter` does on a zero gain, which
real-number division (where `x / 0 = 0`) cannot express. -/
inductive FVal where
  | finite : ℝ → FVal
  | inf : FVal
  | neginf : FVal
  | nan : FVal

open scoped Classical in
/-- IEEE-754 division for the operand shapes reachable from
`normalize_filter` (finite numerator, finite divisor): `x / 0` is `+∞` for
`x > 0`, `-∞` for `x < 0` and NaN for `x = 0`; other operand shapes do not
occur there and are mapped to NaN. -/
def FVal.div : FVal → FVal → FVal
  | FVal.finite x, FVal.finite y =>
      if y = 0 then
        if 0 < x then FVal.inf else if x < 0 then FVal.neginf else FVal.nan
      else FVal.finite (x / y)
  | _, _ => FVal.nan

/-- `FVal` is non-finite when it is an infinity or NaN. -/
def FVal.nonFinite : FVal → Prop
  | FVal.finite _ => False
  | _ => True

/-- `FilterDef::normalize_filter` viewed at the IEEE-754 value level: the same
unguarded elementwise division `h / g`. -/
def normalize_filter_fp (f : List FVal) (g : FVal) : List FVal :=
  f.map (fun h => FVal.div h g)

/-- `DFT_LEN` from gui.rs. -/
def DFT_LEN : ℕ := 256

/-- The stateful `map` inside `plot_window` in gui.rs, carrying the index `n`. -/
def plotWindowAux (dt : ℝ) : List ℝ → ℕ → List (ℝ × ℝ)
  | [], _ => []
  | w :: rest, n => ((n : ℝ) * dt, w) :: plotWindowAux dt rest (n + 1)

/-- `plot_window` from gui.rs: pairs `(n·dt, w[n])`. -/
def plot_window (w : List ℝ) (f_sampling : ℝ) : List (ℝ × ℝ) :=
  plotWindowAux (1 / f_sampling) w 0

/-- The stateful `map` inside `plot_filter_imp` in gui.rs. -/
def plotImpAux (dt : ℝ) : List ℝ → ℕ → List (ℝ × ℝ)
  | [], _ => []
  | f :: rest, n => ((n : ℝ) * dt, f * dt) :: plotImpAux dt rest (n + 1)

/-- `plot_filter_imp` from gui.rs: pairs `(n·dt, h[n]·dt)`. -/
def plot_filter_imp (f : List ℝ) (f_sampling : ℝ) : List (ℝ × ℝ) :=
  plotImpAux (1 / f_sampling) f 0

/-- The stateful `map` inside `plot_filter_stp` in gui.rs, carrying the index
`n`, the previous tap `f_prev` and the running sum `y`. -/
def plotStpAux (dt : ℝ) : List ℝ → ℕ → ℝ → ℝ → List (ℝ × ℝ)
  | [], _, _, _ => []
  | f :: rest, n, f_prev, y =>
      ((n : ℝ) * dt, y + f_prev + dt * 0.5 * (f + f_prev))
        :: plotStpAux dt rest (n + 1) f (y + f_prev + dt * 0.5 * (f + f_prev))

/-- `plot_filter_stp` from gui.rs: the running (non-standard) trapezoidal
integral, starting from `n = 0`, `f_prev = 0.0`, `y = 0.0`. -/
def plot_filter_stp (f : List ℝ) (f_sampling : ℝ) : List (ℝ × ℝ) :=
  plotStpAux (1 / f_sampling) f 0 0.0 0.0

/-- The fold inside `plot_dft` in gui.rs for one bin `m`, carrying the running
index `n` and the accumulator `(re, im)`; `theta = 2π·(m·n)/DFT_LEN`. -/
def dftAux (m : ℕ) : List ℝ → ℕ → ℝ × ℝ → ℝ × ℝ
  | [], _, acc => acc
  | x :: rest, n, (re, im) =>
      dftAux m rest (n + 1)
        (re + x * Real.cos (2 * π * ((m * n : ℕ) : ℝ) / (DFT_LEN : ℝ)),
         im - x * Real.sin (2 * π * ((m * n : ℕ) : ℝ) / (DFT_LEN : ℝ)))

/-- `plot_dft` from gui.rs: frequency axis `m · (f_sampling / DFT_LEN)` for
`m = 0 .. DFT_LEN/2 - 1`, zipped with the per-bin magnitude in dB,
`20·log10(sqrt(re² + im²))`. -/
def plot_dft (signal : List ℝ) (f_sampling : ℝ) : List (ℝ × ℝ) :=
  let df := f_sampling / (DFT_LEN : ℝ)
  let f := (List.range (DFT_LEN / 2)).map (fun (n : ℕ) => (n : ℝ) * df)
  let dft := (List.range (DFT_LEN / 2)).map (fun m =>
    let p := dftAux m signal 0 (0, 0)
    20 * Real.logb 10 (Real.sqrt (p.1 ^ 2 + p.2 ^ 2)))
  List.zipWith (fun a b => (a, b)) f dft

/-- `struct FilterData` from gui.rs. -/
structure FilterData where
  filter : List ℝ
  window : List ℝ
  f_windowed : List ℝ
  filter_imp : List (ℝ × ℝ)
  filter_stp : List (ℝ × ℝ)
  filter_dft : List (ℝ × ℝ)
  window_fun : List (ℝ × ℝ)
  window_dft : List (ℝ × ℝ)
  f_windowed_imp : List (ℝ × ℝ)
  f_windowed_stp : List (ℝ × ℝ)
  f_windowed_dft : List (ℝ × ℝ)

/-- `impl From<&FilterDef> for FilterData` from gui.rs; `none` models a panic
raised by `compute_window` or `compute_filter_windowed`. -/
def mkFilterData (d : FilterDef) : Option FilterData := do
  let filter := compute_filter d
  let window ← compute_window d
  let f_windowed ← compute_filter_windowed filter window
  pure
    { filter := filter
      window := window
      f_windowed := f_windowed
      filter_imp := plot_filter_imp filter d.f_sampling
      filter_stp := plot_filter_stp filter d.f_sampling
      filter_dft := plot_dft filter d.f_sampling
      window_fun := plot_window window d.f_sampling
      window_dft := plot_dft window d.f_sampling
      f_windowed_imp := plot_filter_imp f_windowed d.f_sampling
      f_windowed_stp := plot_filter_stp f_windowed d.f_sampling
      f_windowed_dft := plot_dft f_windowed d.f_sampling }

/-- Modelled from the spec: the point gain as §4.3 of the spec words it, with
`ω` "the target radian frequency per sample", i.e. `ω = 2π·f_target/f_s` for a
target frequency `f_target` in hertz.  Kept separate from `compute_gain`
(which is translated from the source) so the two can be compared. -/
def specPointGain (h : List ℝ) (fTarget fs : ℝ) : ℝ :=
  Real.sqrt ((∑ n in Finset.range h.length,
      h.getD n 0 * Real.cos (2 * π * fTarget / fs * (n : ℝ))) ^ 2
    + (-(∑ n in Finset.range h.length,
      h.getD n 0 * Real.sin (2 * π * fTarget / fs * (n : ℝ)))) ^ 2)

/-- A one-tap low-pass design: raw kernel `[600]`, DC gain `600`, so the
kernel `compute_filter` returns is `[1]`. -/
def designLP1 : FilterDef :=
  { filter := Filter.LowPass, window := Window.Rectangular, len := 1, shift := 0,
    f_sampling := 1000, f_lo_cut := 100, f_hi_cut := 300 }

/-- A two-tap high-pass design with `f_sampling = 4π` and `f_lo_cut = π`,
chosen so all trigonometric values are exact: raw kernel `[2π, -4]`. -/
def designHP2 : FilterDef :=
  { filter := Filter.HighPass, window := Window.Rectangular, len := 2, shift := 0,
    f_sampling := 4 * π, f_lo_cut := π, f_hi_cut := 0 }

/-- The 64-tap low-pass design of the spec's end-to-end scenario. -/
def designLP64 : FilterDef :=
  { filter := Filter.LowPass, window := Window.Hann, len := 64, shift := 32,
    f_sampling := 1000, f_lo_cut := 100, f_hi_cut := 300 }

/-- A zero-length design. -/
def designLen0 : FilterDef :=
  { filter := Filter.LowPass, window := Window.Rectangular, len := 0, shift := 0,
    f_sampling := 1000, f_lo_cut := 100, f_hi_cut := 300 }

lemma getD_map_range {α : Type} (f : ℕ → α) {len n : ℕ} (h : n < len) (d : α) :
    ((List.range len).map f).getD n d = f n := by
  rw [List.getD_eq_getElem?_getD, List.getElem?_map, List.getElem?_range h]
  rfl

lemma mapM_some {α β : Type} (l : List β) (g : β → α) :
    l.mapM (fun b => some (g b)) = some (l.map g) := by
  rw [← List.mapM'_eq_mapM]
  induction l with
  | nil => rfl
  | cons x rest ih => simp [List.mapM', ih]

lemma compute_window_eq (d : FilterDef) : compute_window d = some (windowTaps d) := by
  rcases Nat.eq_zero_or_pos d.len with h | h
  · simp only [compute_window, windowTaps, h, List.range_zero, List.map_nil]
    rfl
  · have hsub : checkedSub d.len 1 = some (d.len - 1) := by
      simp [checkedSub, Nat.one_le_iff_ne_zero.mpr (Nat.pos_iff_ne_zero.mp h)]
    unfold compute_window windowTaps
    rw [show (fun n => (checkedSub d.len 1).map (fun m => d.window.function n m))
        = fun n => some (d.window.function n (d.len - 1)) by
      funext n; rw [hsub]; rfl]
    exact mapM_some _ _

lemma rawKernel_length (d : FilterDef) : (rawKernel d).length = d.len := by
  simp [rawKernel]

lemma compute_filter_length (d : FilterDef) : (compute_filter d).length = d.len := by
  simp [compute_filter, normalize_filter, rawKernel]

lemma windowTaps_length (d : FilterDef) : (windowTaps d).length = d.len := by
  simp [windowTaps]

lemma computeGainAux_eq (l : List ℝ) (w : ℝ) :
    ∀ (k : ℕ) (re im : ℝ), computeGainAux w l k (re, im)
      = (re + ∑ i in Finset.range l.length, l.getD i 0 * Real.cos (w * ((k + i : ℕ) : ℝ)),
         im - ∑ i in Finset.range l.length, l.getD i 0 * Real.sin (w * ((k + i : ℕ) : ℝ))) := by
  induction l with
  | nil => intro k re im; simp [computeGainAux]
  | cons x rest ih =>
      intro k re im
      rw [computeGainAux, ih]
      have hc : ∀ g : ℕ → ℝ,
          (∑ i in Finset.range (rest.length + 1), (x :: rest).getD i 0 * g (k + i))
            = x * g k + ∑ i in Finset.range rest.length, rest.getD i 0 * g (k + 1 + i) := by
        intro g
        rw [Finset.sum_range_succ']
        simp only [List.getD_cons_succ, List.getD_cons_zero, Nat.add_zero]
        rw [add_comm]
        congr 1
        refine Finset.sum_congr rfl fun i _ => ?_
        congr 2
        omega
      simp only [List.length_cons, hc fun j => Real.cos (w * (j : ℝ)),
        hc fun j => Real.sin (w * (j : ℝ))]
      rw [Prod.mk.injEq]
      exact ⟨by ring, by ring⟩

lemma compute_gain_eq (f : List ℝ) (w : ℝ) :
    compute_gain f w
      = Real.sqrt ((∑ n in Finset.range f.length, f.getD n 0 * Real.cos (w * (n : ℝ))) ^ 2
        + (-(∑ n in Finset.range f.length, f.getD n 0 * Real.sin (w * (n : ℝ)))) ^ 2) := by
  rw [compute_gain, computeGainAux_eq]
  norm_num

lemma dftAux_eq (m : ℕ) (l : List ℝ) :
    ∀ (k : ℕ) (re im : ℝ), dftAux m l k (re, im)
      = (re + ∑ i in Finset.range l.length,
            l.getD i 0 * Real.cos (2 * π * ((m * (k + i) : ℕ) : ℝ) / (DFT_LEN : ℝ)),
         im - ∑ i in Finset.range l.length,
            l.getD i 0 * Real.sin (2 * π * ((m * (k + i) : ℕ) : ℝ) / (DFT_LEN : ℝ))) := by
  induction l with
  | nil => intro k re im; simp [dftAux]
  | cons x rest ih =>
      intro k re im
      rw [dftAux, ih]
      rw [Prod.mk.injEq]
      have hidx : ∀ i : ℕ, k + (i + 1) = k + 1 + i := fun i => by omega
      constructor
      · rw [List.length_cons, Finset.sum_range_succ']
        simp only [List.getD_cons_succ, List.getD_cons_zero, Nat.add_zero]
        rw [show (fun i => rest.getD i 0
              * Real.cos (2 * π * ((m * (k + (i + 1)) : ℕ) : ℝ) / (DFT_LEN : ℝ)))
            = (fun i => rest.getD i 0
              * Real.cos (2 * π * ((m * (k + 1 + i) : ℕ) : ℝ) / (DFT_LEN : ℝ))) by
          funext i
          rw [hidx i]]
        ring
      · rw [List.length_cons, Finset.sum_range_succ']
        simp only [List.getD_cons_succ, List.getD_cons_zero, Nat.add_zero]
        rw [show (fun i => rest.getD i 0
              * Real.sin (2 * π * ((m * (k + (i + 1)) : ℕ) : ℝ) / (DFT_LEN : ℝ)))
            = (fun i => rest.getD i 0
              * Real.sin (2 * π * ((m * (k + 1 + i) : ℕ) : ℝ) / (DFT_LEN : ℝ))) by
          funext i
          rw [hidx i]]
        ring

lemma dftAux_append (m : ℕ) (l₁ l₂ : List ℝ) :
    ∀ (k : ℕ) (acc : ℝ × ℝ),
      dftAux m (l₁ ++ l₂) k acc = dftAux m l₂ (k + l₁.length) (dftAux m l₁ k acc) := by
  induction l₁ with
  | nil => intro k acc; simp [dftAux]
  | cons x rest ih =>
      intro k acc
      obtain ⟨re, im⟩ := acc
      rw [List.cons_append, dftAux, dftAux, ih]
      simp only [List.length_cons]
      congr 1
      omega

lemma dftAux_replicate_zero (m j : ℕ) :
    ∀ (k : ℕ) (acc : ℝ × ℝ), dftAux m (List.replicate j 0) k acc = acc := by
  induction j with
  | zero => intro k acc; rfl
  | succ j ih =>
      intro k acc
      obtain ⟨re, im⟩ := acc
      rw [List.replicate_succ, dftAux]
      simp only [zero_mul, add_zero, sub_zero]
      exact ih _ _

lemma plot_dft_eq (signal : List ℝ) (fs : ℝ) :
    plot_dft signal fs = (List.range (DFT_LEN / 2)).map (fun (m : ℕ) =>
      ((m : ℝ) * (fs / (DFT_LEN : ℝ)),
        20 * Real.logb 10 (Real.sqrt
          ((∑ n in Finset.range signal.length,
              signal.getD n 0 * Real.cos (2 * π * ((m * n : ℕ) : ℝ) / (DFT_LEN : ℝ))) ^ 2
            + (-(∑ n in Finset.range signal.length,
              signal.getD n 0 * Real.sin (2 * π * ((m * n : ℕ) : ℝ) / (DFT_LEN : ℝ)))) ^ 2)))) := by
  have hzip : ∀ {β γ : Type} (g : ℕ → β) (h : ℕ → γ) (l : List ℕ),
      List.zipWith (fun a b => (a, b)) (l.map g) (l.map h)
        = l.map (fun n => (g n, h n)) := by
    intro β γ g h l
    induction l with
    | nil => rfl
    | cons x rest ih => simp [ih]
  simp only [plot_dft]
  rw [hzip]
  refine List.map_congr_left fun m _ => ?_
  rw [dftAux_eq]
  norm_num

lemma plotStpAux_length (dt : ℝ) (l : List ℝ) :
    ∀ (k : ℕ) (prev y : ℝ), (plotStpAux dt l k prev y).length = l.length := by
  induction l with
  | nil => intro k prev y; rfl
  | cons x rest ih => intro k prev y; rw [plotStpAux]; simp [ih]

lemma plotStpAux_getD_fst (dt : ℝ) (l : List ℝ) :
    ∀ (k n : ℕ) (prev y : ℝ), n < l.length →
      ((plotStpAux dt l k prev y).getD n (0, 0)).1 = ((k + n : ℕ) : ℝ) * dt := by
  induction l with
  | nil => intro k n prev y h; simp at h
  | cons x rest ih =>
      intro k n prev y h
      rw [plotStpAux]
      match n with
      | 0 => simp
      | n + 1 =>
          rw [List.getD_cons_succ]
          rw [ih (k + 1) n _ _ (by simpa using Nat.lt_of_succ_lt_succ h)]
          congr 2
          omega

lemma plotStpAux_getD_zero_snd (dt : ℝ) (x : ℝ) (rest : List ℝ) (k : ℕ) (prev y : ℝ) :
    ((plotStpAux dt (x :: rest) k prev y).getD 0 (0, 0)).2
      = y + prev + dt * 0.5 * (x + prev) := by
  rw [plotStpAux]
  rfl

lemma plotStpAux_step (dt : ℝ) (l : List ℝ) :
    ∀ (k n : ℕ) (prev y : ℝ), n + 1 < l.length →
      ((plotStpAux dt l k prev y).getD (n + 1) (0, 0)).2
        = ((plotStpAux dt l k prev y).getD n (0, 0)).2
          + l.getD n 0 + dt * 0.5 * (l.getD (n + 1) 0 + l.getD n 0) := by
  induction l with
  | nil => intro k n prev y h; simp at h
  | cons x rest ih =>
      intro k n prev y h
      match n with
      | 0 =>
          match rest, h with
          | x' :: rest', _ =>
              simp only [plotStpAux, List.getD_cons_succ, List.getD_cons_zero]
      | n + 1 =>
          rw [plotStpAux]
          simp only [List.getD_cons_succ]
          exact ih (k + 1) n x _ (by simpa using Nat.lt_of_succ_lt_succ h)

/-- C3: for every pair of vectors `f` and `w`, `compute_filter_windowed` fails
fast (panics, here `none`) when the lengths differ, and otherwise returns the
elementwise product `f[n] * w[n]` of that same length. -/
theorem c3_windowed_fail_fast (f w : List ℝ) :
    (f.length ≠ w.length → compute_filter_windowed f w = none) ∧
    (f.length = w.length → ∃ r, compute_filter_windowed f w = some r ∧
      r.length = f.length ∧ ∀ i, i < f.length → r.getD i 0 = f.getD i 0 * w.getD i 0) := by
  constructor
  · intro h
    simp [compute_filter_windowed, h]
  · intro h
    refine ⟨List.zipWith (fun a b => a * b) f w, by simp [compute_filter_windowed, h], ?_, ?_⟩
    · rw [List.length_zipWith, ← h, min_self]
    · intro i hi
      have hf : f[i]? = some (f.getD i 0) := by
        rw [List.getElem?_eq_getElem hi, List.getD_eq_getElem?_getD,
          List.getElem?_eq_getElem hi]
        rfl
      have hw : w[i]? = some (w.getD i 0) := by
        have hi' : i < w.length := h ▸ hi
        rw [List.getElem?_eq_getElem hi', List.getD_eq_getElem?_getD,
          List.getElem?_eq_getElem hi']
        rfl
      rw [List.getD_eq_getElem?_getD, List.getElem?_zipWith, hf, hw]
      rfl

/-- C3 witness: mismatched lengths 4 and 5 give `none`; equal lengths give
the elementwise product. -/
theorem c3_windowed_fail_fast_witness :
    (([1, 2, 3, 4] : List ℝ).length ≠ ([5, 6, 7, 8, 9] : List ℝ).length ∧
      compute_filter_windowed [1, 2, 3, 4] [5, 6, 7, 8, 9] = none) ∧
    (([1, 2] : List ℝ).length = ([3, 4] : List ℝ).length ∧
      ∃ r, compute_filter_windowed [1, 2] [3, 4] = some r ∧
        r.length = ([1, 2] : List ℝ).length ∧
        ∀ i, i < ([1, 2] : List ℝ).length →
          r.getD i 0 = ([1, 2] : List ℝ).getD i 0 * ([3, 4] : List ℝ).getD i 0) :=
  ⟨⟨by simp, (c3_windowed_fail_fast [1, 2, 3, 4] [5, 6, 7, 8, 9]).1 (by simp)⟩,
   ⟨by simp, (c3_windowed_fail_fast [1, 2] [3, 4]).2 (by simp)⟩⟩

/-- C10: a design with `len = 0` makes both `compute_filter` and
`compute_window` return an empty vector with no panic: the iteration range
`0..0` is empty, so the `self.len - 1` subtraction inside the `compute_window`
closure is never evaluated and its `usize` underflow is unreachable. -/
theorem c10_zero_len_design (d : FilterDef) (h : d.len = 0) :
    compute_window d = some [] ∧ compute_filter d = [] := by
  constructor
  · simp only [compute_window, h, List.range_zero, List.map_nil]
    rfl
  · simp [compute_filter, normalize_filter, rawKernel, h]

/-- C10 witness: the concrete zero-length design. -/
theorem c10_zero_len_design_witness :
    designLen0.len = 0 ∧
      (compute_window designLen0 = some [] ∧ compute_filter designLen0 = []) :=
  ⟨rfl, c10_zero_len_design designLen0 rfl⟩

open scoped Classical in
/-- C9: normalization divides every tap by the gain with no zero-gain guard:
at the IEEE-754 value level, a gain of `0` turns every nonzero tap into an
infinity and every zero tap into NaN, and these non-finite values are the
returned list itself — nothing clamps them. -/
theorem c9_zero_gain_not_clamped (f : List ℝ) :
    normalize_filter_fp (f.map FVal.finite) (FVal.finite 0)
      = f.map (fun x => if x = 0 then FVal.nan else if 0 < x then FVal.inf else FVal.neginf)
    ∧ ∀ v ∈ normalize_filter_fp (f.map FVal.finite) (FVal.finite 0), v.nonFinite := by
  have h1 : normalize_filter_fp (f.map FVal.finite) (FVal.finite 0)
      = f.map (fun x =>
          if x = 0 then FVal.nan else if 0 < x then FVal.inf else FVal.neginf) := by
    rw [normalize_filter_fp, List.map_map]
    refine List.map_congr_left fun x _ => ?_
    show FVal.div (FVal.finite x) (FVal.finite 0) = _
    rw [FVal.div, if_pos rfl]
    rcases lt_trichotomy x 0 with h | h | h
    · rw [if_neg (by linarith), if_pos h, if_neg (by linarith), if_neg (by linarith)]
    · rw [if_neg (by linarith), if_neg (by linarith), if_pos h]
    · rw [if_pos h, if_neg (by linarith), if_pos h]
  refine ⟨h1, fun v hv => ?_⟩
  rw [h1] at hv
  obtain ⟨x, -, rfl⟩ := List.mem_map.mp hv
  by_cases hx0 : x = 0
  · rw [if_pos hx0]; trivial
  · rw [if_neg hx0]
    by_cases hxp : 0 < x
    · rw [if_pos hxp]; trivial
    · rw [if_neg hxp]; trivial

/-- C9 witness: on taps `[1, 0, -2]` with gain `0` the first output value is
`+∞`, a non-finite value present in the returned list. -/
theorem c9_zero_gain_not_clamped_witness :
    FVal.inf ∈ normalize_filter_fp (([1, 0, -2] : List ℝ).map FVal.finite) (FVal.finite 0)
      ∧ FVal.inf.nonFinite := by
  have hm : FVal.inf
      ∈ normalize_filter_fp (([1, 0, -2] : List ℝ).map FVal.finite) (FVal.finite 0) := by
    rw [(c9_zero_gain_not_clamped ([1, 0, -2] : List ℝ)).1]
    have e1 : (if (1 : ℝ) = 0 then FVal.nan else if 0 < (1 : ℝ) then FVal.inf else FVal.neginf)
        = FVal.inf := by
      rw [if_neg (by norm_num), if_pos (by norm_num)]
    rw [List.map_cons, e1]
    exact List.mem_cons_self _ _
  exact ⟨hm, (c9_zero_gain_not_clamped ([1, 0, -2] : List ℝ)).2 FVal.inf hm⟩

/-- C4: the LowPass raw-kernel tap at the shift index is exactly `2·high_cut`
(in particular `600` for the 64-tap design with `high_cut = 300`), and every
other tap is `sin(2π·high_cut·dt·τ)/(π·dt·τ)` with `τ = n - shift`. -/
theorem c4_low_pass_taps :
    (∀ (s : ℕ) (dt lo hi : ℝ), filter_low_pass s s dt lo hi = 2 * hi) ∧
    (∀ (n s : ℕ) (dt lo hi : ℝ), n ≠ s → filter_low_pass n s dt lo hi
        = Real.sin (2 * π * hi * dt * ((n : ℝ) - (s : ℝ)))
          / (π * dt * ((n : ℝ) - (s : ℝ)))) ∧
    (rawKernel designLP64).getD 32 0 = 600 ∧
    (∀ n, n < 64 → n ≠ 32 → (rawKernel designLP64).getD n 0
        = Real.sin (2 * π * 300 * (1 / 1000) * ((n : ℝ) - 32))
          / (π * (1 / 1000) * ((n : ℝ) - 32))) := by
  refine ⟨?_, ?_, ?_, ?_⟩
  · intro s dt lo hi
    simp [filter_low_pass]
  · intro n s dt lo hi h
    rw [filter_low_pass, if_pos h]
  · rw [rawKernel, getD_map_range _ (by norm_num [designLP64] : 32 < designLP64.len)]
    norm_num [designLP64, Filter.function, filter_low_pass]
  · intro n hn hne
    rw [rawKernel, getD_map_range _ (by norm_num [designLP64]; omega : n < designLP64.len)]
    show filter_low_pass n designLP64.shift (1 / designLP64.f_sampling)
        designLP64.f_lo_cut designLP64.f_hi_cut = _
    rw [show designLP64.shift = 32 from rfl, show designLP64.f_sampling = 1000 from rfl,
      show designLP64.f_lo_cut = 100 from rfl, show designLP64.f_hi_cut = 300 from rfl,
      filter_low_pass, if_pos hne]
    norm_num

/-- C4 witness: the tap at `n = 33` of the 64-tap design. -/
theorem c4_low_pass_taps_witness :
    ((33 : ℕ) < 64 ∧ (33 : ℕ) ≠ 32) ∧
    (rawKernel designLP64).getD 33 0
      = Real.sin (2 * π * 300 * (1 / 1000) * (((33 : ℕ) : ℝ) - 32))
        / (π * (1 / 1000) * (((33 : ℕ) : ℝ) - 32)) :=
  ⟨⟨by norm_num, by norm_num⟩,
    c4_low_pass_taps.2.2.2 33 (by norm_num) (by norm_num)⟩

lemma cos_four_pi : Real.cos (4 * π) = 1 := by
  rw [show (4 : ℝ) * π = ((2 : ℕ) : ℝ) * (2 * π) by push_cast; ring]
  exact Real.cos_nat_mul_two_pi 2

lemma cos_six_pi : Real.cos (6 * π) = 1 := by
  rw [show (6 : ℝ) * π = ((3 : ℕ) : ℝ) * (2 * π) by push_cast; ring]
  exact Real.cos_nat_mul_two_pi 3

lemma cos_eight_pi : Real.cos (8 * π) = 1 := by
  rw [show (8 : ℝ) * π = ((4 : ℕ) : ℝ) * (2 * π) by push_cast; ring]
  exact Real.cos_nat_mul_two_pi 4

/-- C5: every symmetric window kind takes the same value at sample `0` and at
sample `L`, for every length `L ≥ 1`. -/
theorem c5_symmetric_windows :
    ∀ w ∈ ([Window.Triangular, Window.Welch, Window.Hann, Window.Hamming,
        Window.Blackman, Window.Nuttall, Window.BlackmanNuttall,
        Window.BlackmanHarris, Window.FlatTop] : List Window),
      ∀ L : ℕ, 1 ≤ L → w.function 0 L = w.function L L := by
  intro w hw L hL
  have hL0 : (L : ℝ) ≠ 0 := Nat.cast_ne_zero.mpr (by omega)
  have h05 : (0.5 : ℝ) * (L : ℝ) ≠ 0 := mul_ne_zero (by norm_num) hL0
  have hdiv : ∀ c : ℝ, c * (L : ℝ) / (L : ℝ) = c := fun c => mul_div_cancel_right₀ c hL0
  fin_cases hw
  · show window_triangular 0 L = window_triangular L L
    rw [window_triangular, window_triangular, Nat.cast_zero, zero_sub, neg_div,
      div_self h05, abs_neg, show ((L : ℝ) - 0.5 * (L : ℝ)) = 0.5 * (L : ℝ) by ring,
      div_self h05]
  · show window_welch 0 L = window_welch L L
    rw [window_welch, window_welch, Nat.cast_zero, zero_sub, neg_div, div_self h05,
      show ((L : ℝ) - 0.5 * (L : ℝ)) = 0.5 * (L : ℝ) by ring, div_self h05]
    norm_num
  · show window_hann 0 L = window_hann L L
    rw [window_hann, window_hann]
    simp only [Nat.cast_zero, mul_zero, zero_div, Real.cos_zero, hdiv, Real.cos_two_pi]
  · show window_hamming 0 L = window_hamming L L
    rw [window_hamming, window_hamming]
    simp only [Nat.cast_zero, mul_zero, zero_div, Real.cos_zero, hdiv, Real.cos_two_pi]
  · show window_blackman 0 L = window_blackman L L
    rw [window_blackman, window_blackman]
    simp only [Nat.cast_zero, mul_zero, zero_div, Real.cos_zero, hdiv, Real.cos_two_pi,
      cos_four_pi]
  · show window_nuttall 0 L = window_nuttall L L
    rw [window_nuttall, window_nuttall]
    simp only [Nat.cast_zero, mul_zero, zero_div, Real.cos_zero, hdiv, Real.cos_two_pi,
      cos_four_pi, cos_six_pi]
  · show window_blackman_nuttall 0 L = window_blackman_nuttall L L
    rw [window_blackman_nuttall, window_blackman_nuttall]
    simp only [Nat.cast_zero, mul_zero, zero_div, Real.cos_zero, hdiv, Real.cos_two_pi,
      cos_four_pi, cos_six_pi]
  · show window_blackman_harris 0 L = window_blackman_harris L L
    rw [window_blackman_harris, window_blackman_harris]
    simp only [Nat.cast_zero, mul_zero, zero_div, Real.cos_zero, hdiv, Real.cos_two_pi,
      cos_four_pi, cos_six_pi]
  · show window_flat_top 0 L = window_flat_top L L
    rw [window_flat_top, window_flat_top]
    simp only [Nat.cast_zero, mul_zero, zero_div, Real.cos_zero, hdiv, Real.cos_two_pi,
      cos_four_pi, cos_six_pi, cos_eight_pi]

/-- C6: the step view pairs `(n·dt, y[n])` where `y` obeys the source's
running sum `y[n] = y[n-1] + h[n-1] + dt·0.5·(h[n] + h[n-1])` with
`y[-1] = 0` and `h[-1] = 0`. -/
theorem c6_step_view (f : List ℝ) (fs : ℝ) :
    (plot_filter_stp f fs).length = f.length ∧
    (∀ n, n < f.length →
      ((plot_filter_stp f fs).getD n (0, 0)).1 = (n : ℝ) * (1 / fs)) ∧
    (∀ x rest, f = x :: rest →
      ((plot_filter_stp f fs).getD 0 (0, 0)).2 = 0 + 0 + (1 / fs) * 0.5 * (x + 0)) ∧
    (∀ n, n + 1 < f.length →
      ((plot_filter_stp f fs).getD (n + 1) (0, 0)).2
        = ((plot_filter_stp f fs).getD n (0, 0)).2
          + f.getD n 0 + (1 / fs) * 0.5 * (f.getD (n + 1) 0 + f.getD n 0)) := by
  refine ⟨plotStpAux_length _ _ _ _ _, ?_, ?_, ?_⟩
  · intro n hn
    have h := plotStpAux_getD_fst (1 / fs) f 0 n 0.0 0.0 hn
    rw [show plot_filter_stp f fs = plotStpAux (1 / fs) f 0 0.0 0.0 from rfl]
    simpa using h
  · intro x rest h
    subst h
    have h0 := plotStpAux_getD_zero_snd (1 / fs) x rest 0 0.0 0.0
    rw [show plot_filter_stp (x :: rest) fs = plotStpAux (1 / fs) (x :: rest) 0 0.0 0.0
      from rfl, h0]
    norm_num
  · intro n hn
    exact plotStpAux_step (1 / fs) f 0 n 0.0 0.0 hn

/-- C6 witness: the recurrence at `n = 0` on the vector `[1, 2]`. -/
theorem c6_step_view_witness :
    (0 + 1 < ([1, 2] : List ℝ).length) ∧
    ((plot_filter_stp [1, 2] 1).getD (0 + 1) (0, 0)).2
      = ((plot_filter_stp [1, 2] 1).getD 0 (0, 0)).2
        + ([1, 2] : List ℝ).getD 0 0
        + (1 / 1) * 0.5 * (([1, 2] : List ℝ).getD (0 + 1) 0 + ([1, 2] : List ℝ).getD 0 0) :=
  ⟨by norm_num, (c6_step_view [1, 2] 1).2.2.2 0 (by norm_num)⟩

/-- C7: when every tap is nonnegative and the sampling rate is positive, the
`y` values of the step view are monotonically non-decreasing. -/
theorem c7_step_monotone (f : List ℝ) (fs : ℝ)
    (hpos : ∀ x ∈ f, 0 ≤ x) (hfs : 0 < fs) :
    ∀ m n, m ≤ n → n < f.length →
      ((plot_filter_stp f fs).getD m (0, 0)).2
        ≤ ((plot_filter_stp f fs).getD n (0, 0)).2 := by
  have hdt : 0 ≤ 1 / fs := le_of_lt (one_div_pos.mpr hfs)
  have hget : ∀ k, k < f.length → 0 ≤ f.getD k 0 := by
    intro k hk
    rw [List.getD_eq_getElem f 0 hk]
    exact hpos _ (List.getElem_mem hk)
  have hstep : ∀ k, k + 1 < f.length →
      ((plot_filter_stp f fs).getD k (0, 0)).2
        ≤ ((plot_filter_stp f fs).getD (k + 1) (0, 0)).2 := by
    intro k hk
    have hrec := plotStpAux_step (1 / fs) f 0 k 0.0 0.0 hk
    rw [show plot_filter_stp f fs = plotStpAux (1 / fs) f 0 0.0 0.0 from rfl, hrec]
    have h1 : 0 ≤ f.getD k 0 := hget k (Nat.lt_of_succ_lt hk)
    have h2 : 0 ≤ f.getD (k + 1) 0 := hget (k + 1) hk
    have h3 : 0 ≤ (1 / fs) * 0.5 * (f.getD (k + 1) 0 + f.getD k 0) :=
      mul_nonneg (mul_nonneg hdt (by norm_num)) (by linarith)
    linarith
  intro m n
  induction n with
  | zero =>
      intro hmn _
      rw [Nat.le_zero.mp hmn]
  | succ k ih =>
      intro hmn hn
      rcases Nat.eq_or_lt_of_le hmn with h | h
      · rw [h]
      · exact le_trans (ih (Nat.lt_succ_iff.mp h) (Nat.lt_of_succ_lt hn)) (hstep k hn)

/-- C7 witness: the nonnegative vector `[1, 2]` at sampling rate `1`. -/
theorem c7_step_monotone_witness :
    ((∀ x ∈ ([1, 2] : List ℝ), 0 ≤ x) ∧ (0 : ℝ) < 1
      ∧ (0 : ℕ) ≤ 1 ∧ 1 < ([1, 2] : List ℝ).length) ∧
    ((plot_filter_stp [1, 2] 1).getD 0 (0, 0)).2
      ≤ ((plot_filter_stp [1, 2] 1).getD 1 (0, 0)).2 :=
  ⟨⟨by norm_num, by norm_num, by norm_num, by norm_num⟩,
    c7_step_monotone [1, 2] 1 (by norm_num) (by norm_num) 0 1 (by norm_num) (by norm_num)⟩

/-- C8: the spectrum view always has `M/2 = 128` points at `f_m = m·fs/256`,
each magnitude summing only over the input's indices (implicit zero-padding),
so appending trailing zeros leaves the spectrum unchanged. -/
theorem c8_spectrum (h : List ℝ) (fs : ℝ) (k : ℕ) :
    (plot_dft h fs).length = 128 ∧
    (∀ m, m < 128 → (plot_dft h fs).getD m (0, 0)
      = ((m : ℝ) * (fs / 256),
         20 * Real.logb 10 (Real.sqrt
           ((∑ n in Finset.range h.length,
               h.getD n 0 * Real.cos (2 * π * ((m * n : ℕ) : ℝ) / 256)) ^ 2
             + (-(∑ n in Finset.range h.length,
               h.getD n 0 * Real.sin (2 * π * ((m * n : ℕ) : ℝ) / 256))) ^ 2)))) ∧
    plot_dft (h ++ List.replicate k 0) fs = plot_dft h fs := by
  have hcast : ((DFT_LEN : ℕ) : ℝ) = 256 := by norm_num [DFT_LEN]
  refine ⟨?_, ?_, ?_⟩
  · rw [plot_dft_eq, List.length_map, List.length_range]
    norm_num [DFT_LEN]
  · intro m hm
    rw [plot_dft_eq, getD_map_range _ (show m < DFT_LEN / 2 from hm), hcast]
  · have hm : ∀ m : ℕ, dftAux m (h ++ List.replicate k 0) 0 (0, 0) = dftAux m h 0 (0, 0) := by
      intro m
      rw [dftAux_append, dftAux_replicate_zero]
    simp only [plot_dft, hm]

/-- C8 witness: bin `m = 0` of the 4-tap all-ones input at 1000 Hz, and the
zero-padding instance: 4 ones versus 4 ones followed by 252 zeros. -/
theorem c8_spectrum_witness :
    ((0 : ℕ) < 128 ∧
      (plot_dft [1, 1, 1, 1] 1000).getD 0 (0, 0)
        = (((0 : ℕ) : ℝ) * (1000 / 256),
           20 * Real.logb 10 (Real.sqrt
             ((∑ n in Finset.range ([1, 1, 1, 1] : List ℝ).length,
                 ([1, 1, 1, 1] : List ℝ).getD n 0
                   * Real.cos (2 * π * ((0 * n : ℕ) : ℝ) / 256)) ^ 2
               + (-(∑ n in Finset.range ([1, 1, 1, 1] : List ℝ).length,
                 ([1, 1, 1, 1] : List ℝ).getD n 0
                   * Real.sin (2 * π * ((0 * n : ℕ) : ℝ) / 256))) ^ 2)))) ∧
    plot_dft (([1, 1, 1, 1] : List ℝ) ++ List.replicate 252 0) 1000
      = plot_dft [1, 1, 1, 1] 1000 :=
  ⟨⟨by norm_num, (c8_spectrum [1, 1, 1, 1] 1000 252).2.1 0 (by norm_num)⟩,
    (c8_spectrum [1, 1, 1, 1] 1000 252).2.2⟩

lemma compute_filter_windowed_some (d : FilterDef) :
    compute_filter_windowed (compute_filter d) (windowTaps d)
      = some (List.zipWith (fun a b => a * b) (compute_filter d) (windowTaps d)) := by
  rw [compute_filter_windowed, if_neg]
  rw [compute_filter_length, windowTaps_length]
  simp

/-- C1 (amended): the facade's exposed kernel is the NORMALIZED one —
`FilterData.filter` is the raw kernel divided by the gain, the windowed kernel
is the elementwise product of that normalized kernel and the window, and all
analysis views are computed on the normalized and normalized-windowed kernels;
the raw unnormalized kernel is only an intermediate. -/
theorem c1_facade_exposes_normalized (d : FilterDef) :
    (mkFilterData d).map FilterData.filter
      = some (normalize_filter (rawKernel d) (gainOf d)) ∧
    (mkFilterData d).map FilterData.window = some (windowTaps d) ∧
    (mkFilterData d).map FilterData.f_windowed
      = some (List.zipWith (fun a b => a * b) (compute_filter d) (windowTaps d)) ∧
    (mkFilterData d).map FilterData.filter_imp
      = some (plot_filter_imp (compute_filter d) d.f_sampling) ∧
    (mkFilterData d).map FilterData.filter_stp
      = some (plot_filter_stp (compute_filter d) d.f_sampling) ∧
    (mkFilterData d).map FilterData.filter_dft
      = some (plot_dft (compute_filter d) d.f_sampling) ∧
    (mkFilterData d).map FilterData.f_windowed_imp
      = some (plot_filter_imp
          (List.zipWith (fun a b => a * b) (compute_filter d) (windowTaps d)) d.f_sampling) ∧
    (mkFilterData d).map FilterData.f_windowed_stp
      = some (plot_filter_stp
          (List.zipWith (fun a b => a * b) (compute_filter d) (windowTaps d)) d.f_sampling) ∧
    (mkFilterData d).map FilterData.f_windowed_dft
      = some (plot_dft
          (List.zipWith (fun a b => a * b) (compute_filter d) (windowTaps d)) d.f_sampling) := by
  simp only [mkFilterData, compute_window_eq d, compute_filter_windowed_some d,
    Option.bind_eq_bind, Option.some_bind, Option.map_some', pure]
  refine ⟨?_, ?_, ?_, ?_, ?_, ?_, ?_, ?_, ?_⟩ <;> first | rfl | trivial

lemma rawKernel_designLP1 : rawKernel designLP1 = [600] := by
  rw [rawKernel, show designLP1.len = 1 from rfl, show List.range 1 = [0] from rfl,
    List.map_cons, List.map_nil]
  norm_num [designLP1, Filter.function, filter_low_pass]

lemma compute_filter_designLP1 : compute_filter designLP1 = [1] := by
  have hgain : gainOf designLP1 = 600 := by
    rw [show gainOf designLP1 = compute_dc_gain (rawKernel designLP1) from rfl,
      rawKernel_designLP1, compute_dc_gain]
    norm_num
  rw [compute_filter, rawKernel_designLP1, hgain, normalize_filter, List.map_cons,
    List.map_nil]
  norm_num

/-- C1 counterexample: for the one-tap low-pass design the raw (unnormalized)
kernel is `[600]`, but the kernel the facade exposes (and feeds to every
analysis view) is `[1] = [600/600]` — the normalized one, not the raw one. -/
theorem c1_counterexample :
    (mkFilterData designLP1).map FilterData.filter = some [1] ∧
    rawKernel designLP1 = [600] ∧
    (mkFilterData designLP1).map FilterData.filter ≠ some (rawKernel designLP1) := by
  have hfil : (mkFilterData designLP1).map FilterData.filter
      = some (compute_filter designLP1) := by
    simp only [mkFilterData, compute_window_eq designLP1,
      compute_filter_windowed_some designLP1, Option.bind_eq_bind, Option.some_bind,
      Option.map_some', pure]
  refine ⟨by rw [hfil, compute_filter_designLP1], rawKernel_designLP1, ?_⟩
  rw [hfil, compute_filter_designLP1, rawKernel_designLP1]
  intro hcontra
  simp only [Option.some.injEq, List.cons.injEq, and_true] at hcontra
  norm_num at hcontra

/-- C2 (amended): for a HighPass design the normalization gain is
`sqrt(re² + im²)` with `re = Σ h[n]·cos(ω·n)`, `im = -Σ h[n]·sin(ω·n)` over
the raw kernel, where `ω` is the plain hertz value `sampling_rate/2` used
directly as the coefficient of `n` (and the hertz band center
`low_cut + (high_cut - low_cut)/2` for BandPass), NOT the radian frequency
per sample `2π·f/f_s` corresponding to that frequency. -/
theorem c2_point_gain (d : FilterDef) :
    (d.filter = Filter.HighPass → gainOf d
      = Real.sqrt ((∑ n in Finset.range (rawKernel d).length,
            (rawKernel d).getD n 0 * Real.cos (d.f_sampling / 2 * (n : ℝ))) ^ 2
        + (-(∑ n in Finset.range (rawKernel d).length,
            (rawKernel d).getD n 0 * Real.sin (d.f_sampling / 2 * (n : ℝ)))) ^ 2)) ∧
    (d.filter = Filter.BandPass → gainOf d
      = Real.sqrt ((∑ n in Finset.range (rawKernel d).length,
            (rawKernel d).getD n 0
              * Real.cos ((d.f_lo_cut + (d.f_hi_cut - d.f_lo_cut) / 2) * (n : ℝ))) ^ 2
        + (-(∑ n in Finset.range (rawKernel d).length,
            (rawKernel d).getD n 0
              * Real.sin ((d.f_lo_cut + (d.f_hi_cut - d.f_lo_cut) / 2) * (n : ℝ)))) ^ 2)) := by
  constructor
  · intro h
    simp only [gainOf, h]
    exact compute_gain_eq _ _
  · intro h
    simp only [gainOf, h]
    exact compute_gain_eq _ _

/-- C2 witness: the two-tap HighPass design. -/
theorem c2_point_gain_witness :
    designHP2.filter = Filter.HighPass ∧
    gainOf designHP2
      = Real.sqrt ((∑ n in Finset.range (rawKernel designHP2).length,
            (rawKernel designHP2).getD n 0
              * Real.cos (designHP2.f_sampling / 2 * (n : ℝ))) ^ 2
        + (-(∑ n in Finset.range (rawKernel designHP2).length,
            (rawKernel designHP2).getD n 0
              * Real.sin (designHP2.f_sampling / 2 * (n : ℝ)))) ^ 2) :=
  ⟨rfl, (c2_point_gain designHP2).1 rfl⟩

lemma rawKernel_designHP2 : rawKernel designHP2 = [2 * π, -4] := by
  have hpi := Real.pi_ne_zero
  rw [rawKernel, show designHP2.len = 2 from rfl, show List.range 2 = [0, 1] from rfl,
    List.map_cons, List.map_cons, List.map_nil]
  have h0 : designHP2.filter.function 0 designHP2.shift (1 / designHP2.f_sampling)
      designHP2.f_lo_cut designHP2.f_hi_cut = 2 * π := by
    show filter_high_pass 0 0 (1 / (4 * π)) π 0 = 2 * π
    rw [filter_high_pass, if_neg (by norm_num), one_div_one_div]
    ring
  have h1 : designHP2.filter.function 1 designHP2.shift (1 / designHP2.f_sampling)
      designHP2.f_lo_cut designHP2.f_hi_cut = -4 := by
    show filter_high_pass 1 0 (1 / (4 * π)) π 0 = -4
    rw [filter_high_pass, if_pos (by norm_num)]
    push_cast
    rw [show π * (1 - 0 : ℝ) = π by ring,
      show 2 * π * π * (1 / (4 * π)) * (1 - 0 : ℝ) = π / 2 by field_simp; ring,
      Real.sin_pi, Real.sin_pi_div_two,
      show π * (1 / (4 * π)) * (1 - 0 : ℝ) = 1 / 4 by field_simp; ring]
    norm_num
  rw [h0, h1]

lemma gainOf_designHP2 : gainOf designHP2 = 2 * π - 4 := by
  have hpi3 := Real.pi_gt_three
  have hp : computeGainAux (2 * π) [2 * π, -4] 0 (0, 0) = (2 * π - 4, 0) := by
    have hcos : Real.cos (π * 2) = 1 := by rw [mul_comm]; exact Real.cos_two_pi
    have hsin : Real.sin (π * 2) = 0 := by rw [mul_comm]; exact Real.sin_two_pi
    simp only [computeGainAux, Nat.cast_zero, mul_zero, Real.cos_zero, Real.sin_zero,
      Prod.mk.injEq]
    constructor <;> (ring_nf; simp only [hcos, hsin]; try ring)
  rw [show gainOf designHP2
      = compute_gain (rawKernel designHP2) (designHP2.f_sampling / 2) from rfl,
    rawKernel_designHP2, show designHP2.f_sampling / 2 = 2 * π by
      rw [show designHP2.f_sampling = 4 * π from rfl]; ring]
  simp only [compute_gain]
  rw [hp]
  rw [show ((2 * π - 4, (0 : ℝ)).1 : ℝ) ^ 2 + ((2 * π - 4, (0 : ℝ)).2 : ℝ) ^ 2
      = (2 * π - 4) ^ 2 by ring]
  exact Real.sqrt_sq (by linarith)

lemma specPointGain_designHP2 :
    specPointGain (rawKernel designHP2) (designHP2.f_sampling / 2) designHP2.f_sampling
      = 2 * π + 4 := by
  have hpi := Real.pi_ne_zero
  rw [rawKernel_designHP2, specPointGain,
    show 2 * π * (designHP2.f_sampling / 2) / designHP2.f_sampling = π by
      rw [show designHP2.f_sampling = 4 * π from rfl]; field_simp; ring]
  have hre : (∑ n in Finset.range ([2 * π, -4] : List ℝ).length,
      ([2 * π, -4] : List ℝ).getD n 0 * Real.cos (π * (n : ℝ))) = 2 * π + 4 := by
    simp [Finset.sum_range_succ]
  have him : (∑ n in Finset.range ([2 * π, -4] : List ℝ).length,
      ([2 * π, -4] : List ℝ).getD n 0 * Real.sin (π * (n : ℝ))) = 0 := by
    simp [Finset.sum_range_succ]
  rw [hre, him]
  rw [show ((2 * π + 4 : ℝ)) ^ 2 + (-(0 : ℝ)) ^ 2 = (2 * π + 4) ^ 2 by ring]
  exact Real.sqrt_sq (by positivity)

/-- C2 counterexample: for the two-tap HighPass design with `f_s = 4π` and
`low_cut = π`, the gain the code computes (`ω = f_s/2` used directly) is
`2π - 4`, while the claim's formula (`ω` = the radian frequency per sample
corresponding to Nyquist, i.e. `2π·(f_s/2)/f_s = π`) gives `2π + 4`. -/
theorem c2_counterexample :
    gainOf designHP2 = 2 * π - 4 ∧
    specPointGain (rawKernel designHP2) (designHP2.f_sampling / 2) designHP2.f_sampling
      = 2 * π + 4 ∧
    gainOf designHP2
      ≠ specPointGain (rawKernel designHP2) (designHP2.f_sampling / 2)
          designHP2.f_sampling := by
  refine ⟨gainOf_designHP2, specPointGain_designHP2, ?_⟩
  rw [gainOf_designHP2, specPointGain_designHP2]
  intro h
  have : (4 : ℝ) = -4 := by linarith
  norm_num at this

/-- C5 witness: the Triangular window at length `L = 2`. -/
theorem c5_symmetric_windows_witness :
    (Window.Triangular ∈ ([Window.Triangular, Window.Welch, Window.Hann, Window.Hamming,
        Window.Blackman, Window.Nuttall, Window.BlackmanNuttall,
        Window.BlackmanHarris, Window.FlatTop] : List Window) ∧ 1 ≤ (2 : ℕ)) ∧
    Window.Triangular.function 0 2 = Window.Triangular.function 2 2 :=
  ⟨⟨by decide, by decide⟩,
    c5_symmetric_windows Window.Triangular (by decide) 2 (by decide)⟩

end Fir
